import Mathlib

/-!
Verification of the `total_float_wrap` library: total-ordering, hashable
wrappers `TotalF64` / `TotalF32` around IEEE-754 floating-point values.

A float is embedded by its raw bit pattern (a `Nat` below `2 ^ 64`,
respectively `2 ^ 32`); the library never performs floating-point
arithmetic, it only reinterprets, shifts and XORs the bit pattern, so the
bit pattern is a complete model of the wrapped value.  Machine integers
are modelled as mathematical integers together with explicit
two's-complement conversions at every `as` cast of the source.
-/

/-- Reinterpretation of a width-`w` bit pattern as a signed two's-complement
integer: the Rust cast `u64 as i64` (resp. `u32 as i32`). -/
def sintOfBits (w : Nat) (b : Nat) : Int :=
  if b < 2 ^ (w - 1) then (b : Int) else (b : Int) - 2 ^ w

/-- Reinterpretation of a signed integer as its width-`w` bit pattern: the
Rust cast `i64 as u64` (resp. `i32 as u32`). -/
def bitsOfSint (w : Nat) (v : Int) : Nat :=
  (v % (2 : Int) ^ w).toNat

/-- Arithmetic (sign-extending) right shift, the Rust `>>` on a signed
integer: floor division by `2 ^ k`. -/
def asr (v : Int) (k : Nat) : Int := Int.fdiv v (2 ^ k)

/-- XOR of two width-`w` signed integers, performed on their bit patterns
as in the Rust `^` on `i64` / `i32`. -/
def sintXor (w : Nat) (a b : Int) : Int :=
  sintOfBits w ((bitsOfSint w a) ^^^ (bitsOfSint w b))

/-- `TotalF64`: wrapper holding one `f64`, represented by its 64-bit
pattern (`pub struct TotalF64(pub f64)` in `total_f64.rs`). -/
structure TotalF64 where
  bits : Nat

/-- `TotalF64::normalise` from `total_f64.rs`:
`let val = self.0.to_bits() as i64; val ^ (((val >> 63) as u64) >> 1) as i64`. -/
def TotalF64.normalise (x : TotalF64) : Int :=
  let val := sintOfBits 64 x.bits
  sintXor 64 val (sintOfBits 64 ((bitsOfSint 64 (asr val 63)) >>> 1))

/-- `impl From<f64> for TotalF64`: wraps the float unchanged. -/
def TotalF64.fromFloat (f : Nat) : TotalF64 := ⟨f⟩

/-- `impl From<TotalF64> for f64`: returns the wrapped float unchanged. -/
def TotalF64.toFloat : TotalF64 → Nat
  | ⟨f⟩ => f

/-- `PartialEq for TotalF64`: `self.normalise() == other.normalise()`. -/
def TotalF64.beq (a b : TotalF64) : Bool :=
  a.normalise == b.normalise

/-- `Ord for TotalF64`: `self.normalise().cmp(&other.normalise())`. -/
def TotalF64.cmp (a b : TotalF64) : Ordering :=
  compare a.normalise b.normalise

/-- `PartialOrd for TotalF64`: `Some(self.cmp(other))`. -/
def TotalF64.partialCmp (a b : TotalF64) : Option Ordering :=
  some (a.cmp b)

/-- `TotalF32`: wrapper holding one `f32`, represented by its 32-bit
pattern (`pub struct TotalF32(pub f32)` in `total_f32.rs`). -/
structure TotalF32 where
  bits : Nat

/-- `TotalF32::normalise` from `total_f32.rs`:
`let val = self.0.to_bits() as i32; val ^ (((val >> 31) as u32) >> 1) as i32`. -/
def TotalF32.normalise (x : TotalF32) : Int :=
  let val := sintOfBits 32 x.bits
  sintXor 32 val (sintOfBits 32 ((bitsOfSint 32 (asr val 31)) >>> 1))

/-- `impl From<f32> for TotalF32`: wraps the float unchanged. -/
def TotalF32.fromFloat (f : Nat) : TotalF32 := ⟨f⟩

/-- `impl From<TotalF32> for f32`: returns the wrapped float unchanged. -/
def TotalF32.toFloat : TotalF32 → Nat
  | ⟨f⟩ => f

/-- `PartialEq for TotalF32`: `self.normalise() == other.normalise()`. -/
def TotalF32.beq (a b : TotalF32) : Bool :=
  a.normalise == b.normalise

/-- `Ord for TotalF32`: `self.normalise().cmp(&other.normalise())`. -/
def TotalF32.cmp (a b : TotalF32) : Ordering :=
  compare a.normalise b.normalise

/-- `PartialOrd for TotalF32`: `Some(self.cmp(other))`. -/
def TotalF32.partialCmp (a b : TotalF32) : Option Ordering :=
  some (a.cmp b)

/-- Abstract model of a `core::hash::Hasher`: a state type together with
the state transition performed by feeding one machine integer to it. -/
structure HasherModel (σ : Type) where
  write : σ → Int → σ

/-- `Hash for TotalF64` from `total_f64.rs`: feeds `self.normalise()` (and
nothing else) to the hasher state. -/
def TotalF64.hashWith {σ : Type} (H : HasherModel σ) (state : σ) (x : TotalF64) : σ :=
  H.write state x.normalise

/-- `Hash for TotalF32` from `total_f32.rs`: feeds `self.normalise()` (and
nothing else) to the hasher state. -/
def TotalF32.hashWith {σ : Type} (H : HasherModel σ) (state : σ) (x : TotalF32) : σ :=
  H.write state x.normalise

/-- `impl FloatNormalise for f64` from `lib.rs`, as written there:
`let val = self.0.to_bits() as i32; val ^ (((val >> 31) as u32) >> 1) as i32`.
The cast `as i32` truncates the 64-bit pattern to its low 32 bits and the
shifts are 32 bits wide, although the impl declares `type I = i64`. -/
def libFloatNormaliseF64 (b : Nat) : Int :=
  let val := sintOfBits 32 (b % 2 ^ 32)
  sintXor 32 val (sintOfBits 32 ((bitsOfSint 32 (asr val 31)) >>> 1))

/-- The IEEE-754 `totalOrder` predicate on 64-bit patterns, stated from the
standard: every negative-sign pattern precedes every positive-sign pattern;
two positive-sign patterns are ordered by their bit patterns (magnitude
order, with NaN payloads above the infinities); two negative-sign patterns
are ordered in reverse bit-pattern order. -/
def totalOrderLe64 (x y : Nat) : Bool :=
  if x < 2 ^ 63 then
    if y < 2 ^ 63 then decide (x ≤ y) else false
  else
    if y < 2 ^ 63 then true else decide (y ≤ x)

/-- The IEEE-754 `totalOrder` predicate on 32-bit patterns, stated from the
standard exactly as `totalOrderLe64` with single-width constants. -/
def totalOrderLe32 (x y : Nat) : Bool :=
  if x < 2 ^ 31 then
    if y < 2 ^ 31 then decide (x ≤ y) else false
  else
    if y < 2 ^ 31 then true else decide (y ≤ x)

/-- Modelled from the spec: a 64-bit pattern encodes a NaN when its
exponent field is all ones and its mantissa is nonzero, i.e. when its
magnitude bits exceed those of infinity. -/
def f64IsNaNBits (b : Nat) : Bool :=
  decide (0x7FF0000000000000 < b % 2 ^ 63)

/-- Modelled from the spec: ordinary IEEE-754 floating-point equality `==`
on two 64-bit patterns (the language-level float comparison, not part of
`src/`): NaN is equal to nothing, `-0.0 == +0.0`, and otherwise two
patterns are equal exactly when they are identical. -/
def f64IeeeEq (x y : Nat) : Bool :=
  !f64IsNaNBits x && !f64IsNaNBits y &&
    (x == y || (x % 2 ^ 63 == 0 && y % 2 ^ 63 == 0))

/-- Modelled from the spec: 32-bit analogue of `f64IsNaNBits`. -/
def f32IsNaNBits (b : Nat) : Bool :=
  decide (0x7F800000 < b % 2 ^ 31)

/-- Modelled from the spec: 32-bit analogue of `f64IeeeEq`. -/
def f32IeeeEq (x y : Nat) : Bool :=
  !f32IsNaNBits x && !f32IsNaNBits y &&
    (x == y || (x % 2 ^ 31 == 0 && y % 2 ^ 31 == 0))

/-- Quiet bit of an `f64` NaN: bit position `f64::MANTISSA_DIGITS - 2 = 51`. -/
def f64QuietBit : Nat := 2 ^ (53 - 2)

/-- Bit pattern of `f64::NAN` (positive quiet NaN with zero payload). -/
def f64NanBits : Nat := 0x7FF8000000000000

/-- The quiet NaN of the `total_f64.rs` test suite: `f64::NAN | quiet_bit`. -/
def f64QNan : Nat := f64NanBits ||| f64QuietBit

/-- The signaling NaN of the `total_f64.rs` test suite:
`(f64::NAN & !quiet_bit) + 42`. -/
def f64SNan : Nat := (f64NanBits &&& (0xFFFFFFFFFFFFFFFF ^^^ f64QuietBit)) + 42

/-- Sign-bit flip on a 64-bit pattern: float negation as a pure bit
operation, the well-defined way to form a negative NaN. -/
def f64Neg (b : Nat) : Nat := b ^^^ 2 ^ 63

/-- Quiet bit of an `f32` NaN: bit position `f32::MANTISSA_DIGITS - 2 = 22`. -/
def f32QuietBit : Nat := 2 ^ (24 - 2)

/-- Bit pattern of `f32::NAN` (positive quiet NaN with zero payload). -/
def f32NanBits : Nat := 0x7FC00000

/-- The quiet NaN of the `total_f32.rs` test suite: `f32::NAN | quiet_bit`. -/
def f32QNan : Nat := f32NanBits ||| f32QuietBit

/-- The signaling NaN of the `total_f32.rs` test suite:
`(f32::NAN & !quiet_bit) + 42`. -/
def f32SNan : Nat := (f32NanBits &&& (0xFFFFFFFF ^^^ f32QuietBit)) + 42

/-- Sign-bit flip on a 32-bit pattern. -/
def f32Neg (b : Nat) : Nat := b ^^^ 2 ^ 31

/-- The ascending reference chain of §8 of the spec for width 64, as bit
patterns: −qNaN, −sNaN, −∞, −MAX, −2.5, −1.5, −1.0, −0.5, −MIN_POSITIVE,
−max_subnormal, −min_subnormal, −0.0, +0.0, min_subnormal, max_subnormal,
MIN_POSITIVE, 0.5, 1.0, 1.5, 2.5, MAX, +∞, sNaN, qNaN. -/
def f64Chain : List TotalF64 :=
  [⟨f64Neg f64QNan⟩, ⟨f64Neg f64SNan⟩,
   ⟨f64Neg 0x7FF0000000000000⟩, ⟨f64Neg 0x7FEFFFFFFFFFFFFF⟩,
   ⟨f64Neg 0x4004000000000000⟩, ⟨f64Neg 0x3FF8000000000000⟩,
   ⟨f64Neg 0x3FF0000000000000⟩, ⟨f64Neg 0x3FE0000000000000⟩,
   ⟨f64Neg 0x0010000000000000⟩, ⟨f64Neg 0x000FFFFFFFFFFFFF⟩,
   ⟨f64Neg 0x0000000000000001⟩, ⟨f64Neg 0⟩,
   ⟨0⟩, ⟨0x0000000000000001⟩, ⟨0x000FFFFFFFFFFFFF⟩, ⟨0x0010000000000000⟩,
   ⟨0x3FE0000000000000⟩, ⟨0x3FF0000000000000⟩, ⟨0x3FF8000000000000⟩,
   ⟨0x4004000000000000⟩, ⟨0x7FEFFFFFFFFFFFFF⟩, ⟨0x7FF0000000000000⟩,
   ⟨f64SNan⟩, ⟨f64QNan⟩]

/-- The ascending reference chain for width 32, same shape as `f64Chain`
with single-width constants. -/
def f32Chain : List TotalF32 :=
  [⟨f32Neg f32QNan⟩, ⟨f32Neg f32SNan⟩,
   ⟨f32Neg 0x7F800000⟩, ⟨f32Neg 0x7F7FFFFF⟩,
   ⟨f32Neg 0x40200000⟩, ⟨f32Neg 0x3FC00000⟩,
   ⟨f32Neg 0x3F800000⟩, ⟨f32Neg 0x3F000000⟩,
   ⟨f32Neg 0x00800000⟩, ⟨f32Neg 0x007FFFFF⟩,
   ⟨f32Neg 0x00000001⟩, ⟨f32Neg 0⟩,
   ⟨0⟩, ⟨0x00000001⟩, ⟨0x007FFFFF⟩, ⟨0x00800000⟩,
   ⟨0x3F000000⟩, ⟨0x3F800000⟩, ⟨0x3FC00000⟩,
   ⟨0x40200000⟩, ⟨0x7F7FFFFF⟩, ⟨0x7F800000⟩,
   ⟨f32SNan⟩, ⟨f32QNan⟩]

/-- XOR with a low mask of `k` ones complements the low `k` bits: for
`m < 2 ^ k`, `m ^^^ (2 ^ k - 1) = 2 ^ k - (m + 1)`. -/
theorem xorOnes (k m : Nat) (hm : m < 2 ^ k) :
    m ^^^ (2 ^ k - 1) = 2 ^ k - (m + 1) := by
  apply Nat.eq_of_testBit_eq
  intro i
  rw [Nat.testBit_xor, Nat.testBit_two_pow_sub_one, Nat.testBit_two_pow_sub_succ hm]
  by_cases hik : i < k
  · simp [hik]
  · have hmi : m < 2 ^ i :=
      lt_of_lt_of_le hm (Nat.pow_le_pow_right (by norm_num) (Nat.le_of_not_lt hik))
    simp [hik, Nat.testBit_lt_two_pow hmi]

/-- XOR with a low mask of `k` ones leaves the bit at position `k` alone
and complements the `k` bits below it. -/
theorem xorHigh (k m : Nat) (hm : m < 2 ^ k) :
    (2 ^ k + m) ^^^ (2 ^ k - 1) = 2 ^ k + (2 ^ k - (m + 1)) := by
  have hr : 2 ^ k - (m + 1) < 2 ^ k := by
    have := Nat.two_pow_pos k
    omega
  apply Nat.eq_of_testBit_eq
  intro i
  rw [Nat.testBit_xor, Nat.testBit_two_pow_sub_one]
  rcases Nat.lt_trichotomy i k with hik | hik | hik
  · rw [Nat.testBit_two_pow_add_gt hik, Nat.testBit_two_pow_add_gt hik,
      Nat.testBit_two_pow_sub_succ hm]
    simp [hik]
  · subst hik
    rw [Nat.testBit_two_pow_add_eq, Nat.testBit_two_pow_add_eq]
    simp [Nat.testBit_lt_two_pow hm, Nat.testBit_lt_two_pow hr]
  · have hpow : 2 ^ (k + 1) ≤ 2 ^ i := Nat.pow_le_pow_right (by norm_num) hik
    have hpow' : 2 ^ (k + 1) = 2 ^ k + 2 ^ k := by rw [Nat.pow_succ]; omega
    have h1 : 2 ^ k + m < 2 ^ i := by omega
    have h2 : 2 ^ k + (2 ^ k - (m + 1)) < 2 ^ i := by omega
    have hik' : ¬ i < k := by omega
    simp [Nat.testBit_lt_two_pow h1, Nat.testBit_lt_two_pow h2, hik']

/-- Closed form of the 64-bit normaliser: the identity on non-negative
patterns, and `b ↦ 2 ^ 63 - b - 1` on sign-bit-set patterns. -/
theorem normalise_closed64 (b : Nat) (hb : b < 2 ^ 64) :
    TotalF64.normalise ⟨b⟩ = if b < 2 ^ 63 then (b : Int) else 2 ^ 63 - (b : Int) - 1 := by
  show sintXor 64 (sintOfBits 64 b)
      (sintOfBits 64 ((bitsOfSint 64 (asr (sintOfBits 64 b) 63)) >>> 1)) = _
  by_cases hlt : b < 2 ^ 63
  · have hval : sintOfBits 64 b = (b : Int) := by
      unfold sintOfBits
      rw [if_pos (show b < 2 ^ (64 - 1) from hlt)]
    rw [hval]
    have hasr : asr ((b : Int)) 63 = 0 := by
      have hlt' : b < 9223372036854775808 := by simpa using hlt
      unfold asr
      rw [Int.fdiv_eq_ediv _ (by positivity)]
      exact Int.ediv_eq_zero_of_lt (by positivity) (by exact_mod_cast hlt')
    rw [hasr]
    have hb0 : bitsOfSint 64 (0 : Int) = 0 := by simp [bitsOfSint]
    rw [hb0]
    have hs0 : (0 : Nat) >>> 1 = 0 := by simp
    rw [hs0]
    have hm0 : sintOfBits 64 (0 : Nat) = 0 := by simp [sintOfBits]
    rw [hm0]
    unfold sintXor
    have hb64 : bitsOfSint 64 ((b : Int)) = b := by
      unfold bitsOfSint
      rw [Int.emod_eq_of_lt (by positivity) (by exact_mod_cast hb)]
      simp
    rw [hb64, hb0, Nat.xor_zero, hval, if_pos hlt]
  · have hge : 2 ^ 63 ≤ b := Nat.le_of_not_lt hlt
    have e63 : (2 : Int) ^ 63 = 9223372036854775808 := by norm_num
    have e64 : (2 : Int) ^ 64 = 18446744073709551616 := by norm_num
    have n63 : (2 : Nat) ^ 63 = 9223372036854775808 := by norm_num
    have n64 : (2 : Nat) ^ 64 = 18446744073709551616 := by norm_num
    rw [n63] at hge
    rw [n64] at hb
    have hval : sintOfBits 64 b = (b : Int) - 2 ^ 64 := by
      unfold sintOfBits
      rw [if_neg (show ¬ b < 2 ^ (64 - 1) by simpa using hlt)]
    rw [hval]
    have hasr : asr ((b : Int) - 2 ^ 64) 63 = -1 := by
      unfold asr
      rw [Int.fdiv_eq_ediv _ (by positivity), e63, e64]
      omega
    rw [hasr]
    have hb1 : bitsOfSint 64 (-1 : Int) = 2 ^ 64 - 1 := by
      unfold bitsOfSint
      rw [e64, n64]
      omega
    rw [hb1]
    have hshift : ((2 : Nat) ^ 64 - 1) >>> 1 = 2 ^ 63 - 1 := by
      rw [Nat.shiftRight_eq_div_pow, n63, n64]
    rw [hshift]
    have hmask : sintOfBits 64 ((2 : Nat) ^ 63 - 1) = (2 : Int) ^ 63 - 1 := by
      unfold sintOfBits
      rw [if_pos (by norm_num : (2 : Nat) ^ 63 - 1 < 2 ^ (64 - 1))]
      rw [n63, e63]
      omega
    rw [hmask]
    unfold sintXor
    have hbob : bitsOfSint 64 ((b : Int) - 2 ^ 64) = b := by
      unfold bitsOfSint
      rw [e64]
      omega
    have hmb : bitsOfSint 64 ((2 : Int) ^ 63 - 1) = 2 ^ 63 - 1 := by
      unfold bitsOfSint
      rw [e63, e64, n63]
      omega
    rw [hbob, hmb, if_neg hlt]
    have hm' : b - 2 ^ 63 < 2 ^ 63 := by rw [n63]; omega
    have hsplit : b = 2 ^ 63 + (b - 2 ^ 63) := by rw [n63]; omega
    have hxor : b ^^^ (2 ^ 63 - 1) = 2 ^ 63 + (2 ^ 63 - (b - 2 ^ 63 + 1)) := by
      conv_lhs => rw [hsplit]
      exact xorHigh 63 (b - 2 ^ 63) hm'
    rw [hxor]
    unfold sintOfBits
    have hcond : ¬ (2 ^ 63 + (2 ^ 63 - (b - 2 ^ 63 + 1)) < 2 ^ (64 - 1)) := by
      have h1 : (64 : Nat) - 1 = 63 := by norm_num
      rw [h1, n63]
      omega
    rw [if_neg hcond, n63, e63, e64]
    omega

/-- Closed form of the 32-bit normaliser, the single-width analogue of
`normalise_closed64`. -/
theorem normalise_closed32 (b : Nat) (hb : b < 2 ^ 32) :
    TotalF32.normalise ⟨b⟩ = if b < 2 ^ 31 then (b : Int) else 2 ^ 31 - (b : Int) - 1 := by
  show sintXor 32 (sintOfBits 32 b)
      (sintOfBits 32 ((bitsOfSint 32 (asr (sintOfBits 32 b) 31)) >>> 1)) = _
  by_cases hlt : b < 2 ^ 31
  · have hval : sintOfBits 32 b = (b : Int) := by
      unfold sintOfBits
      rw [if_pos (show b < 2 ^ (32 - 1) from hlt)]
    rw [hval]
    have hasr : asr ((b : Int)) 31 = 0 := by
      have hlt' : b < 2147483648 := by simpa using hlt
      unfold asr
      rw [Int.fdiv_eq_ediv _ (by positivity)]
      exact Int.ediv_eq_zero_of_lt (by positivity) (by exact_mod_cast hlt')
    rw [hasr]
    have hb0 : bitsOfSint 32 (0 : Int) = 0 := by simp [bitsOfSint]
    rw [hb0]
    have hs0 : (0 : Nat) >>> 1 = 0 := by simp
    rw [hs0]
    have hm0 : sintOfBits 32 (0 : Nat) = 0 := by simp [sintOfBits]
    rw [hm0]
    unfold sintXor
    have hb32 : bitsOfSint 32 ((b : Int)) = b := by
      unfold bitsOfSint
      rw [Int.emod_eq_of_lt (by positivity) (by exact_mod_cast hb)]
      simp
    rw [hb32, hb0, Nat.xor_zero, hval, if_pos hlt]
  · have hge : 2 ^ 31 ≤ b := Nat.le_of_not_lt hlt
    have e31 : (2 : Int) ^ 31 = 2147483648 := by norm_num
    have e32 : (2 : Int) ^ 32 = 4294967296 := by norm_num
    have n31 : (2 : Nat) ^ 31 = 2147483648 := by norm_num
    have n32 : (2 : Nat) ^ 32 = 4294967296 := by norm_num
    rw [n31] at hge
    rw [n32] at hb
    have hval : sintOfBits 32 b = (b : Int) - 2 ^ 32 := by
      unfold sintOfBits
      rw [if_neg (show ¬ b < 2 ^ (32 - 1) by simpa using hlt)]
    rw [hval]
    have hasr : asr ((b : Int) - 2 ^ 32) 31 = -1 := by
      unfold asr
      rw [Int.fdiv_eq_ediv _ (by positivity), e31, e32]
      omega
    rw [hasr]
    have hb1 : bitsOfSint 32 (-1 : Int) = 2 ^ 32 - 1 := by
      unfold bitsOfSint
      rw [e32, n32]
      omega
    rw [hb1]
    have hshift : ((2 : Nat) ^ 32 - 1) >>> 1 = 2 ^ 31 - 1 := by
      rw [Nat.shiftRight_eq_div_pow, n31, n32]
    rw [hshift]
    have hmask : sintOfBits 32 ((2 : Nat) ^ 31 - 1) = (2 : Int) ^ 31 - 1 := by
      unfold sintOfBits
      rw [if_pos (by norm_num : (2 : Nat) ^ 31 - 1 < 2 ^ (32 - 1))]
      rw [n31, e31]
      omega
    rw [hmask]
    unfold sintXor
    have hbob : bitsOfSint 32 ((b : Int) - 2 ^ 32) = b := by
      unfold bitsOfSint
      rw [e32]
      omega
    have hmb : bitsOfSint 32 ((2 : Int) ^ 31 - 1) = 2 ^ 31 - 1 := by
      unfold bitsOfSint
      rw [e31, e32, n31]
      omega
    rw [hbob, hmb, if_neg hlt]
    have hm' : b - 2 ^ 31 < 2 ^ 31 := by rw [n31]; omega
    have hsplit : b = 2 ^ 31 + (b - 2 ^ 31) := by rw [n31]; omega
    have hxor : b ^^^ (2 ^ 31 - 1) = 2 ^ 31 + (2 ^ 31 - (b - 2 ^ 31 + 1)) := by
      conv_lhs => rw [hsplit]
      exact xorHigh 31 (b - 2 ^ 31) hm'
    rw [hxor]
    unfold sintOfBits
    have hcond : ¬ (2 ^ 31 + (2 ^ 31 - (b - 2 ^ 31 + 1)) < 2 ^ (32 - 1)) := by
      have h1 : (32 : Nat) - 1 = 31 := by norm_num
      rw [h1, n31]
      omega
    rw [if_neg hcond, n31, e31, e32]
    omega

/-- `compare` on `Int` unfolds to `compareOfLessAndEq`. -/
theorem compareInt_def (a b : Int) :
    compare a b = if a < b then Ordering.lt else if a = b then Ordering.eq else Ordering.gt :=
  rfl

/-- `compare` on `Int` returns `eq` exactly on equal arguments. -/
theorem compareInt_eq_iff (a b : Int) : compare a b = Ordering.eq ↔ a = b := by
  rw [compareInt_def]
  split_ifs with h1 h2
  · simp [h1.ne]
  · simp [h2]
  · simp [h2]

/-- `compare` on `Int` returns `lt` exactly when the first argument is
smaller. -/
theorem compareInt_lt_iff (a b : Int) : compare a b = Ordering.lt ↔ a < b := by
  rw [compareInt_def]
  split_ifs with h1 h2
  · simp [h1]
  · simp [h1]
  · simp [h1]

/-- The 64-bit normaliser is monotone onto the IEEE-754 totalOrder. -/
theorem normalise64_le_iff (x y : Nat) (hx : x < 2 ^ 64) (hy : y < 2 ^ 64) :
    TotalF64.normalise ⟨x⟩ ≤ TotalF64.normalise ⟨y⟩ ↔ totalOrderLe64 x y = true := by
  rw [normalise_closed64 x hx, normalise_closed64 y hy]
  unfold totalOrderLe64
  simp only [show (2 : Nat) ^ 63 = 9223372036854775808 from by norm_num,
    show (2 : Int) ^ 63 = 9223372036854775808 from by norm_num]
  by_cases h1 : x < 9223372036854775808 <;> by_cases h2 : y < 9223372036854775808 <;>
    simp [h1, h2] <;> omega

/-- The 32-bit normaliser is monotone onto the IEEE-754 totalOrder. -/
theorem normalise32_le_iff (x y : Nat) (hx : x < 2 ^ 32) (hy : y < 2 ^ 32) :
    TotalF32.normalise ⟨x⟩ ≤ TotalF32.normalise ⟨y⟩ ↔ totalOrderLe32 x y = true := by
  rw [normalise_closed32 x hx, normalise_closed32 y hy]
  unfold totalOrderLe32
  simp only [show (2 : Nat) ^ 31 = 2147483648 from by norm_num,
    show (2 : Int) ^ 31 = 2147483648 from by norm_num]
  by_cases h1 : x < 2147483648 <;> by_cases h2 : y < 2147483648 <;>
    simp [h1, h2] <;> omega

/-- C1: for the 64-bit wrapper, the normaliser is order-isomorphic to
IEEE-754 totalOrder: for every pair of 64-bit patterns `x`, `y`,
`normalise x ≤ normalise y` (as signed 64-bit integers) holds iff `x`
precedes or equals `y` under totalOrder, including every NaN encoding and
both signed zeros. -/
theorem TotalF64.normalise_totalOrder_iso (x y : Nat) (hx : x < 2 ^ 64) (hy : y < 2 ^ 64) :
    TotalF64.normalise ⟨x⟩ ≤ TotalF64.normalise ⟨y⟩ ↔ totalOrderLe64 x y = true :=
  normalise64_le_iff x y hx hy

/-- Witness for C1 at the pair (-0.0, +0.0). -/
theorem TotalF64.normalise_totalOrder_iso_witness :
    (2 : Nat) ^ 63 < 2 ^ 64 ∧ (0 : Nat) < 2 ^ 64 ∧
    (TotalF64.normalise ⟨2 ^ 63⟩ ≤ TotalF64.normalise ⟨0⟩ ↔ totalOrderLe64 (2 ^ 63) 0 = true) :=
  ⟨by norm_num, by norm_num,
   TotalF64.normalise_totalOrder_iso (2 ^ 63) 0 (by norm_num) (by norm_num)⟩

/-- C2 (failing input): the `impl FloatNormalise for f64` in `lib.rs`
truncates the bit pattern to 32 bits and shifts by 31, so on the pattern of
`-0.0` (`0x8000000000000000`) it returns `0`, while the width-64 normaliser
of the claim (`TotalF64::normalise`) returns `-1`. -/
theorem libFloatNormaliseF64_truncation_bug :
    libFloatNormaliseF64 0x8000000000000000 = 0 ∧
    TotalF64.normalise ⟨0x8000000000000000⟩ = -1 ∧
    libFloatNormaliseF64 0x8000000000000000 ≠ TotalF64.normalise ⟨0x8000000000000000⟩ :=
  ⟨by decide, by decide, by decide⟩

/-- C3: the 64-bit wrapper's comparison reproduces exactly the ascending
chain -qNaN < -sNaN < -∞ < -MAX < -2.5 < -1.5 < -1.0 < -0.5 <
-MIN_POSITIVE < -max_subnormal < -min_subnormal < -0.0 < +0.0 <
min_subnormal < max_subnormal < MIN_POSITIVE < 0.5 < 1.0 < 1.5 < 2.5 <
MAX < +∞ < sNaN < qNaN, with the quiet bit at position
MANTISSA_DIGITS - 2 and negative NaNs formed by flipping only the sign
bit. -/
theorem TotalF64.cmp_total_order_chain :
    List.Chain' (fun a b => TotalF64.cmp a b = Ordering.lt) f64Chain := by
  simp only [f64Chain, List.chain'_cons, List.chain'_singleton, and_true]
  decide

/-- C4: round-trip — for every bit pattern, wrapping a float and unwrapping
it returns exactly the same bit pattern, for both widths. -/
theorem roundtrip_bit_exact (f : Nat) :
    TotalF64.toFloat (TotalF64.fromFloat f) = f ∧
    TotalF32.toFloat (TotalF32.fromFloat f) = f :=
  ⟨rfl, rfl⟩

/-- C5: hash-equality consistency — for any hasher model, any starting
state and any two wrapper values of either width, equality of the wrappers
implies equality of the hash results, because the hash is computed solely
from the normalised integer that equality also compares. -/
theorem hash_eq_consistent {σ : Type} (H : HasherModel σ) (s : σ) :
    (∀ a b : TotalF64, TotalF64.beq a b = true →
      TotalF64.hashWith H s a = TotalF64.hashWith H s b) ∧
    (∀ a b : TotalF32, TotalF32.beq a b = true →
      TotalF32.hashWith H s a = TotalF32.hashWith H s b) := by
  constructor
  · intro a b hab
    have h : a.normalise = b.normalise := by simpa [TotalF64.beq] using hab
    simp [TotalF64.hashWith, h]
  · intro a b hab
    have h : a.normalise = b.normalise := by simpa [TotalF32.beq] using hab
    simp [TotalF32.hashWith, h]

/-- Witness for C5 with the additive hasher on `Int` states. -/
theorem hash_eq_consistent_witness :
    TotalF64.beq ⟨5⟩ ⟨5⟩ = true ∧
    TotalF64.hashWith ⟨fun s v => s + v⟩ 0 ⟨5⟩ = TotalF64.hashWith ⟨fun s v => s + v⟩ 0 ⟨5⟩ :=
  ⟨by decide, (hash_eq_consistent ⟨fun s v => s + v⟩ (0 : Int)).1 ⟨5⟩ ⟨5⟩ (by decide)⟩

/-- C6: signed-zero distinction — the wrapper of -0.0 is strictly below
the wrapper of +0.0 and the two are not equal, for both widths, even
though the two patterns are equal under ordinary IEEE-754 floating-point
equality. -/
theorem signed_zero_distinction :
    TotalF64.cmp ⟨0x8000000000000000⟩ ⟨0⟩ = Ordering.lt ∧
    TotalF64.beq ⟨0x8000000000000000⟩ ⟨0⟩ = false ∧
    f64IeeeEq 0x8000000000000000 0 = true ∧
    TotalF32.cmp ⟨0x80000000⟩ ⟨0⟩ = Ordering.lt ∧
    TotalF32.beq ⟨0x80000000⟩ ⟨0⟩ = false ∧
    f32IeeeEq 0x80000000 0 = true :=
  ⟨by decide, by decide, by decide, by decide, by decide, by decide⟩

/-- C7: comparison is total and consistent with equality — for every pair
of wrapper values of either width, `partial_cmp` returns `Some` of the
three-valued comparison (never "incomparable"), and the comparison is
`Equal` exactly when the equality test succeeds. -/
theorem cmp_total_and_eq_consistent :
    (∀ a b : TotalF64, TotalF64.partialCmp a b = some (TotalF64.cmp a b) ∧
      (TotalF64.cmp a b = Ordering.eq ↔ TotalF64.beq a b = true)) ∧
    (∀ a b : TotalF32, TotalF32.partialCmp a b = some (TotalF32.cmp a b) ∧
      (TotalF32.cmp a b = Ordering.eq ↔ TotalF32.beq a b = true)) := by
  constructor
  · intro a b
    refine ⟨rfl, ?_⟩
    simp [TotalF64.cmp, TotalF64.beq, compareInt_eq_iff]
  · intro a b
    refine ⟨rfl, ?_⟩
    simp [TotalF32.cmp, TotalF32.beq, compareInt_eq_iff]

/-- C8: the 32-bit wrapper satisfies the same contract with single-width
constants: the normaliser is order-isomorphic to 32-bit IEEE-754
totalOrder on all patterns (including NaNs and signed zeros), and the
comparison reproduces the 32-bit reference chain with the quiet bit at
position f32::MANTISSA_DIGITS - 2. -/
theorem TotalF32.normalise_totalOrder_iso_chain :
    (∀ x y : Nat, x < 2 ^ 32 → y < 2 ^ 32 →
      (TotalF32.normalise ⟨x⟩ ≤ TotalF32.normalise ⟨y⟩ ↔ totalOrderLe32 x y = true)) ∧
    List.Chain' (fun a b => TotalF32.cmp a b = Ordering.lt) f32Chain := by
  constructor
  · intro x y hx hy
    exact normalise32_le_iff x y hx hy
  · simp only [f32Chain, List.chain'_cons, List.chain'_singleton, and_true]
    decide

/-- Witness for C8 at the pair (-0.0, +0.0). -/
theorem TotalF32.normalise_totalOrder_iso_chain_witness :
    (2 : Nat) ^ 31 < 2 ^ 32 ∧ (0 : Nat) < 2 ^ 32 ∧
    (TotalF32.normalise ⟨2 ^ 31⟩ ≤ TotalF32.normalise ⟨0⟩ ↔ totalOrderLe32 (2 ^ 31) 0 = true) :=
  ⟨by norm_num, by norm_num,
   TotalF32.normalise_totalOrder_iso_chain.1 (2 ^ 31) 0 (by norm_num) (by norm_num)⟩

/-- C9: reflexivity — for every bit pattern, including every NaN
encoding, the wrapper built from it equals itself and compares `Equal` to
itself, for both widths. -/
theorem eq_cmp_reflexive (f : Nat) :
    TotalF64.beq (TotalF64.fromFloat f) (TotalF64.fromFloat f) = true ∧
    TotalF64.cmp (TotalF64.fromFloat f) (TotalF64.fromFloat f) = Ordering.eq ∧
    TotalF32.beq (TotalF32.fromFloat f) (TotalF32.fromFloat f) = true ∧
    TotalF32.cmp (TotalF32.fromFloat f) (TotalF32.fromFloat f) = Ordering.eq := by
  refine ⟨?_, ?_, ?_, ?_⟩
  · simp [TotalF64.beq]
  · exact (compareInt_eq_iff _ _).mpr rfl
  · simp [TotalF32.beq]
  · exact (compareInt_eq_iff _ _).mpr rfl

/-- C10: wrapper equality coincides with bit-pattern equality — for
patterns in range, the equality test succeeds exactly when the raw bit
patterns are identical (the normaliser is injective), for both widths. -/
theorem beq_iff_bit_pattern_eq (x y x2 y2 : Nat)
    (hx : x < 2 ^ 64) (hy : y < 2 ^ 64) (hx2 : x2 < 2 ^ 32) (hy2 : y2 < 2 ^ 32) :
    (TotalF64.beq ⟨x⟩ ⟨y⟩ = true ↔ x = y) ∧
    (TotalF32.beq ⟨x2⟩ ⟨y2⟩ = true ↔ x2 = y2) := by
  constructor
  · simp only [TotalF64.beq, beq_iff_eq]
    rw [normalise_closed64 x hx, normalise_closed64 y hy]
    simp only [show (2 : Nat) ^ 63 = 9223372036854775808 from by norm_num,
      show (2 : Int) ^ 63 = 9223372036854775808 from by norm_num]
    by_cases h1 : x < 9223372036854775808 <;> by_cases h2 : y < 9223372036854775808 <;>
      simp [h1, h2] <;> omega
  · simp only [TotalF32.beq, beq_iff_eq]
    rw [normalise_closed32 x2 hx2, normalise_closed32 y2 hy2]
    simp only [show (2 : Nat) ^ 31 = 2147483648 from by norm_num,
      show (2 : Int) ^ 31 = 2147483648 from by norm_num]
    by_cases h1 : x2 < 2147483648 <;> by_cases h2 : y2 < 2147483648 <;>
      simp [h1, h2] <;> omega

/-- Witness for C10 at the pairs (-0.0, +0.0) of both widths. -/
theorem beq_iff_bit_pattern_eq_witness :
    ((2 : Nat) ^ 63 < 2 ^ 64 ∧ (0 : Nat) < 2 ^ 64 ∧
     (2 : Nat) ^ 31 < 2 ^ 32 ∧ (0 : Nat) < 2 ^ 32) ∧
    ((TotalF64.beq ⟨2 ^ 63⟩ ⟨0⟩ = true ↔ (2 : Nat) ^ 63 = 0) ∧
     (TotalF32.beq ⟨2 ^ 31⟩ ⟨0⟩ = true ↔ (2 : Nat) ^ 31 = 0)) :=
  ⟨⟨by norm_num, by norm_num, by norm_num, by norm_num⟩,
   beq_iff_bit_pattern_eq (2 ^ 63) 0 (2 ^ 31) 0
     (by norm_num) (by norm_num) (by norm_num) (by norm_num)⟩
